import Mathlib

/-!
Verification of the BDM/Scholz expected-utility bargaining model.

This file is a shallow embedding of the Python sources
(bdm_scholz_model.py, with model.py as an earlier draft of the same
design).  Python floats are modelled as real numbers, float
exponentiation as Real.rpow, and operations that can raise a
ZeroDivisionError or ValueError are modelled as Option-returning
functions.  The actor collection of a model is a list; iteration order
follows the source.
-/

namespace BDM

noncomputable section

open scoped Classical

/-- An actor: name, capability c, salience s, issue position x and
risk aversion r (fields as in Actor.__init__ of the source). -/
structure Actor where
  name : String
  c : ℝ
  s : ℝ
  x : ℝ
  r : ℝ

/-- A model: the actor list, the status-quo weight q and the issue
position range, which is computed once at construction and stored. -/
structure Model where
  actors : List Actor
  q : ℝ
  position_range : ℝ

/-- The three offer kinds produced by Offer.from_actors. -/
inductive OfferType where
  | confrontation : OfferType
  | compromise : OfferType
  | capitulation : OfferType
deriving DecidableEq

/-- An offer: receiving actor, proposing actor, kind, the two expected
utilities and the offered position (fields as in Offer.__init__). -/
structure Offer where
  actor : Actor
  other_actor : Actor
  offer_type : OfferType
  eu : ℝ
  other_eu : ℝ
  position : ℝ

/-- Actor.compare of the source: difference in utility to actor a
between positions x_j and x_k, under the given risk exponent.
The position range R is supplied by the owning model. -/
def compare (R : ℝ) (a : Actor) (x_j x_k risk : ℝ) : ℝ :=
  a.c * a.s * ((|a.x - x_k| / R) ^ risk - (|a.x - x_j| / R) ^ risk)

/-- Actor.u_success of the source: utility to actor a of successfully
challenging position x_j, under risk exponent risk. -/
def u_success (R risk : ℝ) (a : Actor) (x_j : ℝ) : ℝ :=
  2 - 4 * ((0.5 : ℝ) - 0.5 * |a.x - x_j| / R) ^ risk

/-- Actor.u_failure of the source: utility to actor a of failing to
challenge position x_j, under risk exponent risk. -/
def u_failure (R risk : ℝ) (a : Actor) (x_j : ℝ) : ℝ :=
  2 - 4 * ((0.5 : ℝ) + 0.5 * |a.x - x_j| / R) ^ risk

/-- Actor.u_status_quo of the source. -/
def u_status_quo (risk : ℝ) : ℝ :=
  2 - 4 * (0.5 : ℝ) ^ risk

/-- Numerator of Model.probability: sum over all actors of
max(0, compare(actor, x_i, x_j)), each actor evaluated at its own
risk aversion (the source passes no explicit risk). -/
def numerSum (M : Model) (x_i x_j : ℝ) : ℝ :=
  (M.actors.map (fun a => max 0 (compare M.position_range a x_i x_j a.r))).sum

/-- Denominator of Model.probability (sum_all_votes of the source):
sum over all actors and all ordered pairs of actor positions of the
absolute compare value. -/
def denomSum (M : Model) : ℝ :=
  (M.actors.map (fun a =>
    (M.actors.map (fun a1 =>
      (M.actors.map (fun a2 =>
        |compare M.position_range a a1.x a2.x a.r|)).sum)).sum)).sum

/-- Model.probability of the source: 0.0 on equal positions, otherwise
the quotient of numerSum by denomSum. -/
def probability (M : Model) (x_i x_j : ℝ) : ℝ :=
  if x_i = x_j then 0 else numerSum M x_i x_j / denomSum M

/-- Actor.eu_challenge of the source: expected utility to actor_i of
challenging actor_j, computed from the point of view of the actor
self, whose risk aversion self.r is used throughout. -/
def eu_challenge (M : Model) (self actor_i actor_j : Actor) : ℝ :=
  let prob := probability M actor_i.x actor_j.x
  let u_s := u_success M.position_range self.r actor_i actor_j.x
  let u_f := u_failure M.position_range self.r actor_i actor_j.x
  let u_sq := u_status_quo self.r
  actor_j.s * (prob * u_s + (1 - prob) * u_f) + (1 - actor_j.s) * u_s - M.q * u_sq

/-- Offer.from_actors of the source: classify the ordered pair into a
confrontation, compromise or capitulation offer, or none (stalemate).
The chained Python comparisons are expanded into conjunctions. -/
def from_actors (M : Model) (actor other_actor : Actor) : Option Offer :=
  let eu_ij := eu_challenge M actor actor other_actor
  let eu_ji := eu_challenge M actor other_actor actor
  if eu_ji > eu_ij ∧ eu_ij > 0 then
    some ⟨actor, other_actor, OfferType.confrontation, eu_ij, eu_ji, other_actor.x⟩
  else if (eu_ji > 0 ∧ 0 > eu_ij) ∧ eu_ji > |eu_ij| then
    some ⟨actor, other_actor, OfferType.compromise, eu_ij, eu_ji,
      actor.x + (other_actor.x - actor.x) * |eu_ij / eu_ji|⟩
  else if (eu_ji > 0 ∧ 0 > eu_ij) ∧ eu_ji < |eu_ji| then
    some ⟨actor, other_actor, OfferType.capitulation, eu_ij, eu_ji, other_actor.x⟩
  else
    none

/-- The offers collected by Actor.best_offer: one pass over the actor
list, skipping same-position pairs, keeping the classified offers in
list order. -/
def offersOf (M : Model) (a : Actor) : List Offer :=
  M.actors.filterMap (fun b => if a.x = b.x then none else from_actors M a b)

/-- The bucket of collected offers of one kind (offers[offer_type] of
the source, which appends in iteration order). -/
def bucketOf (M : Model) (a : Actor) (t : OfferType) : List Offer :=
  (offersOf M a).filter (fun o => o.offer_type = t)

/-- Python min with a key function over a nonempty list: the first
element achieving the least key.  Returns none on the empty list. -/
def minBy (key : Offer → ℝ) : List Offer → Option Offer
  | [] => none
  | o :: os => some (os.foldl (fun best o2 => if key o2 < key best then o2 else best) o)

/-- The special compromise selection key of Actor.best_offer
(compromise_best_offer_key of the source). -/
def compromise_key (o : Offer) : ℝ :=
  (|o.eu| * o.actor.x + |o.other_eu| * o.other_actor.x) / (|o.eu| + |o.other_eu|)

/-- Actor.best_offer of the source: confrontation bucket first, then
compromise (under its special key), then capitulation; none if all
buckets are empty. -/
def best_offer (M : Model) (a : Actor) : Option Offer :=
  match bucketOf M a OfferType.confrontation with
  | c :: cs => minBy (fun o => |a.x - o.position|) (c :: cs)
  | [] =>
    match bucketOf M a OfferType.compromise with
    | m :: ms => minBy compromise_key (m :: ms)
    | [] =>
      match bucketOf M a OfferType.capitulation with
      | p :: ps => minBy (fun o => |a.x - o.position|) (p :: ps)
      | [] => none

/-- Actor.danger_level of the source: sum over the other actors b of
the expected utility, to b, of b challenging a, evaluated from the
point of view of a (self.eu_challenge(other_actor, self)).  The
skipped term (b equal to a) is rendered as adding zero. -/
def danger_level (M : Model) (a : Actor) : ℝ :=
  (M.actors.map (fun b => if b = a then 0 else eu_challenge M a b a)).sum

/-- The maximum of the danger levels of all actors of the model
(max(danger_levels) of the source; 0 for the empty model, where the
source would raise). -/
def maxDanger (M : Model) : ℝ :=
  match M.actors.map (fun b => danger_level M b) with
  | [] => 0
  | d :: ds => ds.foldl max d

/-- The minimum of the danger levels of all actors of the model. -/
def minDanger (M : Model) : ℝ :=
  match M.actors.map (fun b => danger_level M b) with
  | [] => 0
  | d :: ds => ds.foldl min d

/-- Actor.risk_acceptance of the source.  The Python code raises a
ZeroDivisionError when the danger spread is zero (and a ValueError on
an empty actor list); both failures are modelled as none. -/
def risk_acceptance (M : Model) (a : Actor) : Option ℝ :=
  match M.actors.map (fun b => danger_level M b) with
  | [] => none
  | d :: ds =>
    if ds.foldl max d - ds.foldl min d = 0 then none
    else some ((2 * danger_level M a - ds.foldl max d - ds.foldl min d) /
      (ds.foldl max d - ds.foldl min d))

/-- Model.positions of the source: the deduplicated list of actor
positions.  The source materialises a Python set, whose iteration
order is unspecified; the embedding fixes the first-occurrence order. -/
def positions (M : Model) : List ℝ :=
  (M.actors.map (fun a => a.x)).dedup

/-- Model.median_position of the source: fold over the remaining
positions, replacing the current median whenever the summed compare
votes at fixed risk 1.0 are positive.  None on an empty model, where
the source would raise an IndexError. -/
def median_position (M : Model) : Option ℝ :=
  match positions M with
  | [] => none
  | p :: ps =>
    some (ps.foldl (fun median pos =>
      if 0 < (M.actors.map (fun a => compare M.position_range a pos median 1)).sum
      then pos else median) p)

/-- Commit step of Model.update_positions: write the offered position
onto the actor when an offer is present. -/
def applyOffer (a : Actor) : Option Offer → Actor
  | some o => { a with x := o.position }
  | none => a

/-- Write one precomputed offer into the actor list at the cursor
index, as the in-place loop of the source does. -/
def setAt (cur : List Actor) (i : ℕ) (o : Option Offer) : List Actor :=
  match cur.get? i with
  | some a => cur.set i (applyOffer a o)
  | none => cur

/-- Sequential commit loop of Model.update_positions: the precomputed
offers are written into the shared actor list one at a time, in
iteration order. -/
def commitSeq : List Actor → ℕ → List (Option Offer) → List Actor
  | cur, _, [] => cur
  | cur, i, o :: os => commitSeq (setAt cur i o) (i + 1) os

/-- Model.update_positions of the source: first compute every best
offer against the current model (the list comprehension), then run the
sequential commit loop. -/
def update_positions (M : Model) : Model :=
  { M with actors := commitSeq M.actors 0 (M.actors.map (fun a => best_offer M a)) }

/-- Modelled from the specification text of update_positions: map
best_offer over a snapshot of the actor list and commit all resulting
positions together. -/
def update_positions_spec (M : Model) : Model :=
  { M with actors := M.actors.map (fun a => applyOffer a (best_offer M a)) }

/-- Replace every risk aversion of a model according to f, leaving
every other field (and the stored position range) unchanged. -/
def withRisks (M : Model) (f : Actor → ℝ) : Model :=
  { actors := M.actors.map (fun a => { a with r := f a }),
    q := M.q,
    position_range := M.position_range }

/-- Model.__init__ of the source: build the model and store the
position range max minus min.  On an empty record list the source
raises a ValueError, modelled as none; no other validation exists. -/
def mkModel (data : List Actor) (q : ℝ) : Option Model :=
  match data.map (fun a => a.x) with
  | [] => none
  | p :: ps =>
    some { actors := data, q := q, position_range := ps.foldl max p - ps.foldl min p }

/-- Concrete actor used for spot checks: capability 1/4, salience 1/2,
position 0, risk aversion 1. -/
def A1 : Actor := ⟨"A", 1/4, 1/2, 0, 1⟩

/-- Concrete actor used for spot checks: capability 1/2, salience 1/2,
position 10, risk aversion 1. -/
def B1 : Actor := ⟨"B", 1/2, 1/2, 10, 1⟩

/-- Concrete two-actor model in which A1 receives a confrontation
offer from B1. -/
def M1 : Model := ⟨[A1, B1], 1, 10⟩

/-- The confrontation offer generated for A1 in model M1. -/
def offerC : Offer := ⟨A1, B1, OfferType.confrontation, 1/3, 2/3, 10⟩

/-- Concrete actor for the compromise scenario. -/
def A2 : Actor := ⟨"C", 1/5, 3/5, 0, 1⟩

/-- Concrete actor for the compromise scenario. -/
def B2 : Actor := ⟨"D", 4/5, 3/5, 10, 1⟩

/-- Concrete two-actor model in which A2 receives a compromise offer
from B2 and no confrontation offer. -/
def M2 : Model := ⟨[A2, B2], 1, 10⟩

/-- The compromise offer generated for A2 in model M2. -/
def offerM : Offer := ⟨A2, B2, OfferType.compromise, -(4/25), 14/25, 20/7⟩

/-- Concrete symmetric actor (capability 1, salience 1, position 0). -/
def U4 : Actor := ⟨"U", 1, 1, 0, 1⟩

/-- Concrete symmetric actor (capability 1, salience 1, position 10). -/
def V4 : Actor := ⟨"V", 1, 1, 10, 1⟩

/-- Concrete symmetric two-actor model; both actors carry the same
danger level. -/
def W4 : Model := ⟨[U4, V4], 1, 10⟩

/-- Concrete actor at position 5, for the degenerate-range model. -/
def aP : Actor := ⟨"P", 1/2, 1/2, 5, 1⟩

/-- Concrete second actor at the same position 5. -/
def aQ : Actor := ⟨"Q", 1/2, 1/2, 5, 1⟩

/-- The model that mkModel builds from two actors sharing position 5:
construction succeeds and the stored position range is 0. -/
def MPQ : Model := ⟨[aP, aQ], 1, 0⟩

/-- Concrete actor used in the u_success and u_failure spot checks. -/
def cactor : Actor := ⟨"E", 1/2, 1/2, 0, 2⟩

end

/-- Helper: folding max over a list whose members all equal d gives d. -/
theorem foldl_max_of_all_eq (l : List ℝ) (d : ℝ) (h : ∀ y ∈ l, y = d) :
    l.foldl max d = d := by
  induction l with
  | nil => rfl
  | cons y t ih =>
    rw [List.foldl_cons, h y (by simp), max_self]
    exact ih (fun z hz => h z (by simp [hz]))

/-- Helper: folding min over a list whose members all equal d gives d. -/
theorem foldl_min_of_all_eq (l : List ℝ) (d : ℝ) (h : ∀ y ∈ l, y = d) :
    l.foldl min d = d := by
  induction l with
  | nil => rfl
  | cons y t ih =>
    rw [List.foldl_cons, h y (by simp), min_self]
    exact ih (fun z hz => h z (by simp [hz]))

/-- Claim C3: probability returns exactly 0 whenever its two arguments
are equal, for every model. -/
theorem claim_C3 (M : Model) (x : ℝ) : probability M x x = 0 := by
  simp [probability]

/-- Claim C9: compare is antisymmetric in its two position arguments,
for every actor, every risk value and nonzero position range. -/
theorem claim_C9 (R : ℝ) (a : Actor) (x_j x_k risk : ℝ) (hR : R ≠ 0) :
    compare R a x_j x_k risk = -compare R a x_k x_j risk := by
  simp only [compare]
  ring

/-- Spot check for claim C9 at the concrete actor A1. -/
theorem claim_C9_witness :
    (10 : ℝ) ≠ 0 ∧ compare 10 A1 2 7 1 = -compare 10 A1 7 2 1 :=
  ⟨by norm_num, claim_C9 10 A1 2 7 1 (by norm_num)⟩

/-- Helper: from_actors never produces a capitulation offer, because
its guard compares eu_ji against its own absolute value. -/
theorem from_actors_no_capitulation (M : Model) (a b : Actor) (o : Offer)
    (h : from_actors M a b = some o) : o.offer_type ≠ OfferType.capitulation := by
  intro hcap
  simp only [from_actors] at h
  by_cases h1 : eu_challenge M a b a > eu_challenge M a a b ∧ eu_challenge M a a b > 0
  · rw [if_pos h1] at h
    injection h with h4
    rw [← h4] at hcap
    simp at hcap
  · rw [if_neg h1] at h
    by_cases h2 : (eu_challenge M a b a > 0 ∧ 0 > eu_challenge M a a b) ∧
        eu_challenge M a b a > |eu_challenge M a a b|
    · rw [if_pos h2] at h
      injection h with h4
      rw [← h4] at hcap
      simp at hcap
    · rw [if_neg h2] at h
      by_cases h3 : (eu_challenge M a b a > 0 ∧ 0 > eu_challenge M a a b) ∧
          eu_challenge M a b a < |eu_challenge M a b a|
      · have hlt := h3.2
        rw [abs_of_pos h3.1.1] at hlt
        exact lt_irrefl _ hlt
      · rw [if_neg h3] at h
        exact Option.noConfusion h

/-- Claim C10: the capitulation branch of offer classification is
unreachable, so the capitulation bucket of every actor in every model
is empty. -/
theorem claim_C10 (M : Model) (a : Actor) :
    bucketOf M a OfferType.capitulation = [] := by
  rw [bucketOf, List.filter_eq_nil_iff]
  intro o ho
  rw [offersOf, List.mem_filterMap] at ho
  rcases ho with ⟨b, _, hfb⟩
  by_cases hx : a.x = b.x
  · rw [if_pos hx] at hfb
    exact Option.noConfusion hfb
  · rw [if_neg hx] at hfb
    simpa using from_actors_no_capitulation M a b o hfb

/-- Claim C5 counterexample: at risk exponent 2 the same-position
success and failure utilities are 1, not 0 (matching the embedded
test of the source, which asserts the value 1 at risk aversion 2). -/
theorem claim_C5_counterexample :
    u_success 10 2 cactor cactor.x = 1 ∧ u_failure 10 2 cactor cactor.x = 1 := by
  have h2 : (0.5 : ℝ) ^ (2 : ℝ) = 0.25 := by
    rw [show (2 : ℝ) = ((2 : ℕ) : ℝ) by norm_num, Real.rpow_natCast]
    norm_num
  constructor
  · simp only [u_success, sub_self, abs_zero, mul_zero, zero_mul, zero_div, sub_zero]
    rw [h2]
    norm_num
  · simp only [u_failure, sub_self, abs_zero, mul_zero, zero_mul, zero_div, add_zero]
    rw [h2]
    norm_num

/-- Claim C5 amended: the same-position utilities equal the
status-quo utility 2 - 4 * (1/2) ^ risk, which is 0 exactly at risk
exponent 1; the spec property holds only there. -/
theorem claim_C5_amended (R risk : ℝ) (a : Actor) (hR : R ≠ 0) :
    u_success R risk a a.x = u_status_quo risk ∧
    u_failure R risk a a.x = u_status_quo risk ∧
    (risk = 1 → u_success R risk a a.x = 0 ∧ u_failure R risk a a.x = 0) := by
  refine ⟨?_, ?_, ?_⟩
  · simp [u_success, u_status_quo, sub_self, abs_zero]
  · simp [u_failure, u_status_quo]
  · rintro rfl
    constructor <;>
    · simp [u_success, u_failure, sub_self, abs_zero, Real.rpow_one]
      norm_num

/-- Spot check for the amended claim C5 at the concrete actor. -/
theorem claim_C5_witness :
    (10 : ℝ) ≠ 0 ∧ u_success 10 1 cactor cactor.x = 0 ∧ u_failure 10 1 cactor cactor.x = 0 :=
  ⟨by norm_num, (claim_C5_amended 10 1 cactor (by norm_num)).2.2 rfl⟩

/-- Claim C6 counterexample: constructing a model from two records
sharing one position succeeds and stores position range 0; no
InvalidConfiguration failure occurs at construction time. -/
theorem claim_C6_counterexample :
    mkModel [aP, aQ] 1 = some MPQ ∧ MPQ.position_range = 0 := by
  constructor
  · simp only [mkModel, List.map_cons, List.map_nil]
    simp [aP, aQ, MPQ]
  · rfl

/-- Claim C6 amended: building a model from a nonempty record list
whose positions are all equal succeeds, with stored position range 0;
the division by zero is deferred to the downstream computations that
divide by the range. -/
theorem claim_C6_amended (a : Actor) (as : List Actor) (q : ℝ)
    (h : ∀ b ∈ a :: as, b.x = a.x) :
    ∃ M : Model, mkModel (a :: as) q = some M ∧ M.position_range = 0 ∧ M.actors = a :: as := by
  refine ⟨⟨a :: as, q, 0⟩, ?_, rfl, rfl⟩
  have hmax : (as.map (fun b => b.x)).foldl max a.x = a.x := by
    refine foldl_max_of_all_eq _ _ ?_
    intro y hy
    rcases List.mem_map.mp hy with ⟨b, hb, rfl⟩
    exact h b (by simp [hb])
  have hmin : (as.map (fun b => b.x)).foldl min a.x = a.x := by
    refine foldl_min_of_all_eq _ _ ?_
    intro y hy
    rcases List.mem_map.mp hy with ⟨b, hb, rfl⟩
    exact h b (by simp [hb])
  simp only [mkModel, List.map_cons]
  simp [hmax, hmin]

/-- Spot check for the amended claim C6 at the two concrete actors
sharing position 5. -/
theorem claim_C6_witness :
    (∀ b ∈ aP :: [aQ], b.x = aP.x) ∧
    ∃ M : Model, mkModel (aP :: [aQ]) 1 = some M ∧ M.position_range = 0 ∧
      M.actors = aP :: [aQ] := by
  have h : ∀ b ∈ aP :: [aQ], b.x = aP.x := by
    intro b hb
    simp only [List.mem_cons, List.mem_singleton, List.not_mem_nil, or_false] at hb
    rcases hb with rfl | rfl
    · rfl
    · simp [aP, aQ]
  exact ⟨h, claim_C6_amended aP [aQ] 1 h⟩

/-- Helper: reading the cursor position of an appended list. -/
theorem get_append_cons (done : List Actor) (a : Actor) (rest : List Actor) :
    (done ++ a :: rest).get? done.length = some a := by
  induction done with
  | nil => rfl
  | cons d t ih => exact ih

/-- Helper: writing at the cursor position of an appended list. -/
theorem set_append_cons (done : List Actor) (a b : Actor) (rest : List Actor) :
    (done ++ a :: rest).set done.length b = done ++ b :: rest := by
  induction done with
  | nil => rfl
  | cons d t ih => simp [List.set, ih]

/-- Helper: the sequential commit loop over precomputed offers acts as
a simultaneous pointwise update. -/
theorem commitSeq_spec (f : Actor → Option Offer) :
    ∀ (rest done : List Actor),
      commitSeq (done ++ rest) done.length (rest.map f) =
        done ++ rest.map (fun a => applyOffer a (f a)) := by
  intro rest
  induction rest with
  | nil =>
    intro done
    simp [commitSeq]
  | cons a t ih =>
    intro done
    rw [List.map_cons, commitSeq]
    have h1 : setAt (done ++ a :: t) done.length (f a) =
        done ++ applyOffer a (f a) :: t := by
      simp only [setAt, get_append_cons, set_append_cons]
    rw [h1, show done ++ applyOffer a (f a) :: t =
      (done ++ [applyOffer a (f a)]) ++ t by simp,
      show done.length + 1 = (done ++ [applyOffer a (f a)]).length by simp,
      ih (done ++ [applyOffer a (f a)])]
    simp

/-- Claim C2: update_positions equals the read-then-commit reference:
every best offer is computed against the pre-round model and all
position updates are applied together. -/
theorem claim_C2 (M : Model) : update_positions M = update_positions_spec M := by
  rw [update_positions, update_positions_spec]
  congr 1
  have h := commitSeq_spec (fun a => best_offer M a) M.actors []
  simpa using h

/-- Claim C8: the reported median position is computed at fixed risk
1.0 and is invariant under any change of the risk aversions. -/
theorem claim_C8 (M : Model) (f : Actor → ℝ) :
    median_position (withRisks M f) = median_position M := by
  have hpos : positions (withRisks M f) = positions M := by
    have hx1 : (M.actors.map (fun a => { a with r := f a })).map (fun a => a.x) =
        M.actors.map (fun a => a.x) := by
      rw [List.map_map]
      rfl
    show ((M.actors.map (fun a => ({ a with r := f a } : Actor))).map (fun a => a.x)).dedup =
      (M.actors.map (fun a => a.x)).dedup
    rw [hx1]
  have hfun : (fun (median pos : ℝ) =>
      if 0 < ((withRisks M f).actors.map
        (fun a => compare (withRisks M f).position_range a pos median 1)).sum
      then pos else median) =
      (fun (median pos : ℝ) =>
      if 0 < (M.actors.map (fun a => compare M.position_range a pos median 1)).sum
      then pos else median) := by
    funext median pos
    have hx2 : (M.actors.map (fun a => { a with r := f a })).map
        (fun a => compare M.position_range a pos median 1) =
        M.actors.map (fun a => compare M.position_range a pos median 1) := by
      rw [List.map_map]
      rfl
    have hsum : ((withRisks M f).actors.map
        (fun a => compare (withRisks M f).position_range a pos median 1)).sum =
        (M.actors.map (fun a => compare M.position_range a pos median 1)).sum := by
      show ((M.actors.map (fun a => ({ a with r := f a } : Actor))).map
          (fun a => compare M.position_range a pos median 1)).sum =
        (M.actors.map (fun a => compare M.position_range a pos median 1)).sum
      rw [hx2]
    rw [hsum]
  rw [median_position, median_position, hpos, hfun]

/-- Claim C4: for actor positions, the probability numerator is
bounded by the denominator (its terms all occur in the triple sum),
so the returned probability lies in the unit interval whenever the
denominator is nonzero. -/
theorem claim_C4 (M : Model) (ai aj : Actor)
    (hR : M.position_range ≠ 0) (hi : ai ∈ M.actors) (hj : aj ∈ M.actors)
    (hd : denomSum M ≠ 0) :
    numerSum M ai.x aj.x ≤ denomSum M ∧
    0 ≤ probability M ai.x aj.x ∧ probability M ai.x aj.x ≤ 1 := by
  have hnum_nonneg : 0 ≤ numerSum M ai.x aj.x := by
    refine List.sum_nonneg ?_
    intro t ht
    rcases List.mem_map.mp ht with ⟨b, _, rfl⟩
    exact le_max_left 0 _
  have hden_nonneg : 0 ≤ denomSum M := by
    refine List.sum_nonneg ?_
    intro t ht
    rcases List.mem_map.mp ht with ⟨b, _, rfl⟩
    refine List.sum_nonneg ?_
    intro t1 ht1
    rcases List.mem_map.mp ht1 with ⟨b1, _, rfl⟩
    refine List.sum_nonneg ?_
    intro t2 ht2
    rcases List.mem_map.mp ht2 with ⟨b2, _, rfl⟩
    exact abs_nonneg _
  have hkey : numerSum M ai.x aj.x ≤ denomSum M := by
    refine List.sum_le_sum ?_
    intro b _
    have h1 : max 0 (compare M.position_range b ai.x aj.x b.r) ≤
        |compare M.position_range b ai.x aj.x b.r| :=
      max_le (abs_nonneg _) (le_abs_self _)
    have h2 : |compare M.position_range b ai.x aj.x b.r| ≤
        (M.actors.map (fun a2 => |compare M.position_range b ai.x a2.x b.r|)).sum := by
      refine List.single_le_sum ?_ _ ?_
      · intro t ht
        rcases List.mem_map.mp ht with ⟨b2, _, rfl⟩
        exact abs_nonneg _
      · exact List.mem_map_of_mem _ hj
    have h3 : (M.actors.map (fun a2 => |compare M.position_range b ai.x a2.x b.r|)).sum ≤
        (M.actors.map (fun a1 =>
          (M.actors.map (fun a2 => |compare M.position_range b a1.x a2.x b.r|)).sum)).sum := by
      refine List.single_le_sum ?_ _ ?_
      · intro t ht
        rcases List.mem_map.mp ht with ⟨b1, _, rfl⟩
        refine List.sum_nonneg ?_
        intro t2 ht2
        rcases List.mem_map.mp ht2 with ⟨b2, _, rfl⟩
        exact abs_nonneg _
      · exact List.mem_map_of_mem _ hi
    exact le_trans h1 (le_trans h2 h3)
  refine ⟨hkey, ?_, ?_⟩
  · by_cases hx : ai.x = aj.x
    · rw [probability, if_pos hx]
    · rw [probability, if_neg hx]
      have hden_pos : 0 < denomSum M := lt_of_le_of_ne hden_nonneg (Ne.symm hd)
      exact div_nonneg hnum_nonneg (le_of_lt hden_pos)
  · by_cases hx : ai.x = aj.x
    · rw [probability, if_pos hx]
      norm_num
    · rw [probability, if_neg hx]
      have hden_pos : 0 < denomSum M := lt_of_le_of_ne hden_nonneg (Ne.symm hd)
      exact (div_le_one hden_pos).mpr hkey

/-- Helper: the seed is below the max fold. -/
theorem le_foldl_max (l : List ℝ) : ∀ d : ℝ, d ≤ l.foldl max d := by
  induction l with
  | nil => intro d; exact le_refl d
  | cons y t ih =>
    intro d
    rw [List.foldl_cons]
    exact le_trans (le_max_left d y) (ih (max d y))

/-- Helper: every member is below the max fold. -/
theorem mem_le_foldl_max (l : List ℝ) : ∀ (d x : ℝ), x ∈ l → x ≤ l.foldl max d := by
  induction l with
  | nil =>
    intro d x hx
    cases hx
  | cons y t ih =>
    intro d x hx
    rw [List.foldl_cons]
    rcases List.mem_cons.mp hx with rfl | hxt
    · exact le_trans (le_max_right d x) (le_foldl_max t (max d x))
    · exact ih (max d y) x hxt

/-- Helper: the min fold is below the seed. -/
theorem foldl_min_le (l : List ℝ) : ∀ d : ℝ, l.foldl min d ≤ d := by
  induction l with
  | nil => intro d; exact le_refl d
  | cons y t ih =>
    intro d
    rw [List.foldl_cons]
    exact le_trans (ih (min d y)) (min_le_left d y)

/-- Helper: the min fold is below every member. -/
theorem foldl_min_le_mem (l : List ℝ) : ∀ (d x : ℝ), x ∈ l → l.foldl min d ≤ x := by
  induction l with
  | nil =>
    intro d x hx
    cases hx
  | cons y t ih =>
    intro d x hx
    rw [List.foldl_cons]
    rcases List.mem_cons.mp hx with rfl | hxt
    · exact le_trans (foldl_min_le t (min d x)) (min_le_right d x)
    · exact ih (min d y) x hxt

/-- Helper: maxDanger on a model with a nonempty actor list reduces to
the fold over the mapped danger levels. -/
theorem maxDanger_cons (M : Model) (a0 : Actor) (as : List Actor)
    (hM : M.actors = a0 :: as) :
    maxDanger M = (as.map (fun b => danger_level M b)).foldl max (danger_level M a0) := by
  rw [maxDanger, hM, List.map_cons]

/-- Helper: minDanger on a model with a nonempty actor list reduces to
the fold over the mapped danger levels. -/
theorem minDanger_cons (M : Model) (a0 : Actor) (as : List Actor)
    (hM : M.actors = a0 :: as) :
    minDanger M = (as.map (fun b => danger_level M b)).foldl min (danger_level M a0) := by
  rw [minDanger, hM, List.map_cons]

/-- Helper: risk_acceptance on a model with a nonempty actor list
reduces to the guarded normalisation formula. -/
theorem risk_acceptance_cons (M : Model) (a a0 : Actor) (as : List Actor)
    (hM : M.actors = a0 :: as) :
    risk_acceptance M a =
      (if (as.map (fun b => danger_level M b)).foldl max (danger_level M a0) -
          (as.map (fun b => danger_level M b)).foldl min (danger_level M a0) = 0 then none
      else some ((2 * danger_level M a -
          (as.map (fun b => danger_level M b)).foldl max (danger_level M a0) -
          (as.map (fun b => danger_level M b)).foldl min (danger_level M a0)) /
        ((as.map (fun b => danger_level M b)).foldl max (danger_level M a0) -
          (as.map (fun b => danger_level M b)).foldl min (danger_level M a0)))) := by
  rw [risk_acceptance, hM, List.map_cons]

/-- Claim C7: risk_acceptance yields the failure value none when the
danger levels of all actors coincide, yields the normalisation formula
whenever the danger spread is nonzero, and fails only in the
degenerate case. -/
theorem claim_C7 (M : Model) (a : Actor) :
    ((∀ b ∈ M.actors, ∀ c ∈ M.actors, danger_level M b = danger_level M c) →
      risk_acceptance M a = none) ∧
    (maxDanger M ≠ minDanger M →
      risk_acceptance M a = some ((2 * danger_level M a - maxDanger M - minDanger M) /
        (maxDanger M - minDanger M))) ∧
    (M.actors ≠ [] → risk_acceptance M a = none →
      ∀ b ∈ M.actors, ∀ c ∈ M.actors, danger_level M b = danger_level M c) := by
  refine ⟨?_, ?_, ?_⟩
  · intro hall
    cases hM : M.actors with
    | nil => rw [risk_acceptance, hM]; rfl
    | cons a0 as =>
      have heq : ∀ y ∈ as.map (fun b => danger_level M b), y = danger_level M a0 := by
        intro y hy
        rcases List.mem_map.mp hy with ⟨b, hb, rfl⟩
        exact hall b (by rw [hM]; exact List.mem_cons_of_mem a0 hb) a0 (by rw [hM]; simp)
      rw [risk_acceptance_cons M a a0 as hM]
      rw [foldl_max_of_all_eq _ _ heq, foldl_min_of_all_eq _ _ heq]
      rw [if_pos (sub_self _)]
  · intro hne
    cases hM : M.actors with
    | nil =>
      exfalso
      apply hne
      rw [maxDanger, minDanger, hM, List.map_nil]
    | cons a0 as =>
      have hmax := maxDanger_cons M a0 as hM
      have hmin := minDanger_cons M a0 as hM
      rw [risk_acceptance_cons M a a0 as hM, ← hmax, ← hmin,
        if_neg (sub_ne_zero_of_ne hne)]
  · intro hMne hnone b hb c hc
    cases hM : M.actors with
    | nil => exact absurd hM hMne
    | cons a0 as =>
      rw [risk_acceptance_cons M a a0 as hM] at hnone
      by_cases hzero : (as.map (fun b => danger_level M b)).foldl max (danger_level M a0) -
          (as.map (fun b => danger_level M b)).foldl min (danger_level M a0) = 0
      · have hv := sub_eq_zero.mp hzero
        have hone : ∀ x ∈ danger_level M a0 :: as.map (fun b => danger_level M b),
            x = (as.map (fun b => danger_level M b)).foldl max (danger_level M a0) := by
          intro x hx
          rcases List.mem_cons.mp hx with rfl | hxs
          · exact le_antisymm (le_foldl_max _ _) (by rw [hv]; exact foldl_min_le _ _)
          · exact le_antisymm (mem_le_foldl_max _ _ _ hxs)
              (by rw [hv]; exact foldl_min_le_mem _ _ _ hxs)
        have hmb : danger_level M b ∈ danger_level M a0 :: as.map (fun b => danger_level M b) := by
          rw [show danger_level M a0 :: as.map (fun b => danger_level M b) =
            (a0 :: as).map (fun b => danger_level M b) from rfl, ← hM]
          exact List.mem_map_of_mem _ hb
        have hmc : danger_level M c ∈ danger_level M a0 :: as.map (fun b => danger_level M b) := by
          rw [show danger_level M a0 :: as.map (fun b => danger_level M b) =
            (a0 :: as).map (fun b => danger_level M b) from rfl, ← hM]
          exact List.mem_map_of_mem _ hc
        rw [hone _ hmb, hone _ hmc]
      · rw [if_neg hzero] at hnone
        exact Option.noConfusion hnone

/-- Helper: the Python min fold returns a member of the list whose key
is minimal (and below the seed key). -/
theorem minBy_foldl (key : Offer → ℝ) :
    ∀ (os : List Offer) (o : Offer),
      (os.foldl (fun best o2 => if key o2 < key best then o2 else best) o) ∈ o :: os ∧
      key (os.foldl (fun best o2 => if key o2 < key best then o2 else best) o) ≤ key o ∧
      ∀ o2 ∈ os, key (os.foldl (fun best o2 => if key o2 < key best then o2 else best) o) ≤ key o2 := by
  intro os
  induction os with
  | nil =>
    intro o
    refine ⟨by simp, le_refl _, ?_⟩
    intro o2 ho2
    cases ho2
  | cons b t ih =>
    intro o
    rw [List.foldl_cons]
    rcases ih (if key b < key o then b else o) with ⟨hmem, hle, hall⟩
    have hstep : key (if key b < key o then b else o) ≤ key o := by
      by_cases hb : key b < key o
      · rw [if_pos hb]
        exact le_of_lt hb
      · rw [if_neg hb]
    have hstepb : key (if key b < key o then b else o) ≤ key b := by
      by_cases hb : key b < key o
      · rw [if_pos hb]
      · rw [if_neg hb]
        exact le_of_not_lt hb
    refine ⟨?_, le_trans hle hstep, ?_⟩
    · rcases List.mem_cons.mp hmem with he | ht
      · by_cases hb : key b < key o
        · rw [he, if_pos hb]
          simp
        · rw [he, if_neg hb]
          simp
      · simp [ht]
    · intro o2 ho2
      rcases List.mem_cons.mp ho2 with rfl | ht2
      · exact le_trans hle hstepb
      · exact hall o2 ht2

/-- Helper: membership in a bucket forces the offer kind. -/
theorem bucket_mem_type (M : Model) (a : Actor) (t : OfferType) (o : Offer)
    (h : o ∈ bucketOf M a t) : o.offer_type = t := by
  rw [bucketOf, List.mem_filter] at h
  exact of_decide_eq_true h.2

/-- Claim C1: best-offer selection has strict bucket priority
(confrontation, then compromise, then capitulation), and within the
confrontation and capitulation buckets the chosen offer minimises the
distance of the offered position from the current position. -/
theorem claim_C1 (M : Model) (a : Actor) :
    (∀ c cs, bucketOf M a OfferType.confrontation = c :: cs →
      ∃ o, best_offer M a = some o ∧ o ∈ bucketOf M a OfferType.confrontation ∧
        o.offer_type = OfferType.confrontation ∧
        ∀ o2 ∈ bucketOf M a OfferType.confrontation,
          |a.x - o.position| ≤ |a.x - o2.position|) ∧
    (bucketOf M a OfferType.confrontation = [] →
      ∀ m ms, bucketOf M a OfferType.compromise = m :: ms →
      ∃ o, best_offer M a = some o ∧ o ∈ bucketOf M a OfferType.compromise ∧
        o.offer_type = OfferType.compromise) ∧
    (bucketOf M a OfferType.confrontation = [] →
      bucketOf M a OfferType.compromise = [] →
      ∀ p ps, bucketOf M a OfferType.capitulation = p :: ps →
      ∃ o, best_offer M a = some o ∧ o ∈ bucketOf M a OfferType.capitulation ∧
        o.offer_type = OfferType.capitulation ∧
        ∀ o2 ∈ bucketOf M a OfferType.capitulation,
          |a.x - o.position| ≤ |a.x - o2.position|) := by
  refine ⟨?_, ?_, ?_⟩
  · intro c cs hconf
    have hbo : best_offer M a =
        some (cs.foldl (fun best o2 =>
          if |a.x - o2.position| < |a.x - best.position| then o2 else best) c) := by
      rw [best_offer, hconf]
      rfl
    rcases minBy_foldl (fun o => |a.x - o.position|) cs c with ⟨hmem, hle, hall⟩
    refine ⟨_, hbo, ?_, ?_, ?_⟩
    · rw [hconf]
      exact hmem
    · exact bucket_mem_type M a _ _ (by rw [hconf]; exact hmem)
    · intro o2 ho2
      rw [hconf] at ho2
      rcases List.mem_cons.mp ho2 with rfl | ht
      · exact hle
      · exact hall o2 ht
  · intro hc m ms hcomp
    have hbo : best_offer M a =
        some (ms.foldl (fun best o2 =>
          if compromise_key o2 < compromise_key best then o2 else best) m) := by
      rw [best_offer, hc, hcomp]
      rfl
    rcases minBy_foldl compromise_key ms m with ⟨hmem, _, _⟩
    refine ⟨_, hbo, ?_, ?_⟩
    · rw [hcomp]
      exact hmem
    · exact bucket_mem_type M a _ _ (by rw [hcomp]; exact hmem)
  · intro hc hm p ps hcap
    have hbo : best_offer M a =
        some (ps.foldl (fun best o2 =>
          if |a.x - o2.position| < |a.x - best.position| then o2 else best) p) := by
      rw [best_offer, hc, hm, hcap]
      rfl
    rcases minBy_foldl (fun o => |a.x - o.position|) ps p with ⟨hmem, hle, hall⟩
    refine ⟨_, hbo, ?_, ?_, ?_⟩
    · rw [hcap]
      exact hmem
    · exact bucket_mem_type M a _ _ (by rw [hcap]; exact hmem)
    · intro o2 ho2
      rw [hcap] at ho2
      rcases List.mem_cons.mp ho2 with rfl | ht
      · exact hle
      · exact hall o2 ht

/-- Helper: success utility at distance 10 with range 10 and risk 1. -/
theorem uS10 (a : Actor) (xj : ℝ) (h : |a.x - xj| = 10) : u_success 10 1 a xj = 2 := by
  rw [u_success, h, Real.rpow_one]
  norm_num

/-- Helper: failure utility at distance 10 with range 10 and risk 1. -/
theorem uF10 (a : Actor) (xj : ℝ) (h : |a.x - xj| = 10) : u_failure 10 1 a xj = -2 := by
  rw [u_failure, h, Real.rpow_one]
  norm_num

/-- Helper: status-quo utility at risk 1. -/
theorem uQ1 : u_status_quo 1 = 0 := by
  rw [u_status_quo, Real.rpow_one]
  norm_num

/-- Evaluation: numerator of the win probability of A1 over B1. -/
theorem nm1a : numerSum M1 0 10 = 1/8 := by
  simp [numerSum, M1, A1, B1, compare, Real.rpow_one]
  norm_num [abs_of_nonneg, abs_of_nonpos]

/-- Evaluation: numerator of the win probability of B1 over A1. -/
theorem nm1b : numerSum M1 10 0 = 1/4 := by
  simp [numerSum, M1, A1, B1, compare, Real.rpow_one]
  norm_num [abs_of_nonneg, abs_of_nonpos]

/-- Evaluation: probability denominator of the model M1. -/
theorem dn1 : denomSum M1 = 3/4 := by
  simp [denomSum, M1, A1, B1, compare, Real.rpow_one]
  norm_num [abs_of_nonneg, abs_of_nonpos]

/-- Evaluation: win probability of A1 over B1. -/
theorem pr1 : probability M1 0 10 = 1/6 := by
  rw [probability, if_neg (by norm_num : ¬((0:ℝ) = 10)), nm1a, dn1]
  norm_num

/-- Evaluation: win probability of B1 over A1. -/
theorem pr2 : probability M1 10 0 = 1/3 := by
  rw [probability, if_neg (by norm_num : ¬((10:ℝ) = 0)), nm1b, dn1]
  norm_num

/-- Evaluation: expected utility to A1 of challenging B1 in M1. -/
theorem euA : eu_challenge M1 A1 A1 B1 = 1/3 := by
  have h10 : |A1.x - (10:ℝ)| = 10 := by
    rw [show A1.x = (0:ℝ) from rfl]
    norm_num
  simp only [eu_challenge]
  rw [show M1.position_range = (10:ℝ) from rfl, show M1.q = (1:ℝ) from rfl,
    show A1.r = (1:ℝ) from rfl, show A1.x = (0:ℝ) from rfl,
    show B1.x = (10:ℝ) from rfl, show B1.s = (1/2:ℝ) from rfl]
  rw [pr1, uS10 A1 10 h10, uF10 A1 10 h10, uQ1]
  norm_num

/-- Evaluation: expected utility to B1 of challenging A1, from the
point of view of A1, in M1. -/
theorem euB : eu_challenge M1 A1 B1 A1 = 2/3 := by
  have h10 : |B1.x - (0:ℝ)| = 10 := by
    rw [show B1.x = (10:ℝ) from rfl]
    norm_num
  simp only [eu_challenge]
  rw [show M1.position_range = (10:ℝ) from rfl, show M1.q = (1:ℝ) from rfl,
    show A1.r = (1:ℝ) from rfl, show A1.x = (0:ℝ) from rfl,
    show B1.x = (10:ℝ) from rfl, show A1.s = (1/2:ℝ) from rfl]
  rw [pr2, uS10 B1 0 h10, uF10 B1 0 h10, uQ1]
  norm_num

/-- Evaluation: expected utility to A1 of challenging B1, from the
point of view of B1, in M1. -/
theorem euC : eu_challenge M1 B1 A1 B1 = 1/3 := by
  have h10 : |A1.x - (10:ℝ)| = 10 := by
    rw [show A1.x = (0:ℝ) from rfl]
    norm_num
  simp only [eu_challenge]
  rw [show M1.position_range = (10:ℝ) from rfl, show M1.q = (1:ℝ) from rfl,
    show B1.r = (1:ℝ) from rfl, show A1.x = (0:ℝ) from rfl,
    show B1.x = (10:ℝ) from rfl, show B1.s = (1/2:ℝ) from rfl]
  rw [pr1, uS10 A1 10 h10, uF10 A1 10 h10, uQ1]
  norm_num

/-- Evaluation: numerator of the win probability of A2 over B2. -/
theorem nm2a : numerSum M2 0 10 = 3/25 := by
  simp [numerSum, M2, A2, B2, compare, Real.rpow_one]
  norm_num [abs_of_nonneg, abs_of_nonpos]

/-- Evaluation: numerator of the win probability of B2 over A2. -/
theorem nm2b : numerSum M2 10 0 = 12/25 := by
  simp [numerSum, M2, A2, B2, compare, Real.rpow_one]
  norm_num [abs_of_nonneg, abs_of_nonpos]

/-- Evaluation: probability denominator of the model M2. -/
theorem dn2 : denomSum M2 = 6/5 := by
  simp [denomSum, M2, A2, B2, compare, Real.rpow_one]
  norm_num [abs_of_nonneg, abs_of_nonpos]

/-- Evaluation: win probability of A2 over B2. -/
theorem pr3 : probability M2 0 10 = 1/10 := by
  rw [probability, if_neg (by norm_num : ¬((0:ℝ) = 10)), nm2a, dn2]
  norm_num

/-- Evaluation: win probability of B2 over A2. -/
theorem pr4 : probability M2 10 0 = 2/5 := by
  rw [probability, if_neg (by norm_num : ¬((10:ℝ) = 0)), nm2b, dn2]
  norm_num

/-- Evaluation: expected utility to A2 of challenging B2 in M2. -/
theorem euD : eu_challenge M2 A2 A2 B2 = -(4/25) := by
  have h10 : |A2.x - (10:ℝ)| = 10 := by
    rw [show A2.x = (0:ℝ) from rfl]
    norm_num
  simp only [eu_challenge]
  rw [show M2.position_range = (10:ℝ) from rfl, show M2.q = (1:ℝ) from rfl,
    show A2.r = (1:ℝ) from rfl, show A2.x = (0:ℝ) from rfl,
    show B2.x = (10:ℝ) from rfl, show B2.s = (3/5:ℝ) from rfl]
  rw [pr3, uS10 A2 10 h10, uF10 A2 10 h10, uQ1]
  norm_num

/-- Evaluation: expected utility to B2 of challenging A2, from the
point of view of A2, in M2. -/
theorem euE : eu_challenge M2 A2 B2 A2 = 14/25 := by
  have h10 : |B2.x - (0:ℝ)| = 10 := by
    rw [show B2.x = (10:ℝ) from rfl]
    norm_num
  simp only [eu_challenge]
  rw [show M2.position_range = (10:ℝ) from rfl, show M2.q = (1:ℝ) from rfl,
    show A2.r = (1:ℝ) from rfl, show A2.x = (0:ℝ) from rfl,
    show B2.x = (10:ℝ) from rfl, show A2.s = (3/5:ℝ) from rfl]
  rw [pr4, uS10 B2 0 h10, uF10 B2 0 h10, uQ1]
  norm_num

/-- Evaluation: numerator of the win probability of U4 over V4. -/
theorem nm4a : numerSum W4 0 10 = 1 := by
  simp [numerSum, W4, U4, V4, compare, Real.rpow_one]

/-- Evaluation: numerator of the win probability of V4 over U4. -/
theorem nm4b : numerSum W4 10 0 = 1 := by
  simp [numerSum, W4, U4, V4, compare, Real.rpow_one]

/-- Evaluation: probability denominator of the model W4. -/
theorem dn4 : denomSum W4 = 4 := by
  simp [denomSum, W4, U4, V4, compare, Real.rpow_one]
  norm_num [abs_of_nonneg, abs_of_nonpos]

/-- Evaluation: win probability of U4 over V4. -/
theorem pr5 : probability W4 0 10 = 1/4 := by
  rw [probability, if_neg (by norm_num : ¬((0:ℝ) = 10)), nm4a, dn4]

/-- Evaluation: win probability of V4 over U4. -/
theorem pr6 : probability W4 10 0 = 1/4 := by
  rw [probability, if_neg (by norm_num : ¬((10:ℝ) = 0)), nm4b, dn4]

/-- Evaluation: expected utility to V4 of challenging U4, from the
point of view of U4, in W4. -/
theorem euF : eu_challenge W4 U4 V4 U4 = -1 := by
  have h10 : |V4.x - (0:ℝ)| = 10 := by
    rw [show V4.x = (10:ℝ) from rfl]
    norm_num
  simp only [eu_challenge]
  rw [show W4.position_range = (10:ℝ) from rfl, show W4.q = (1:ℝ) from rfl,
    show U4.r = (1:ℝ) from rfl, show U4.x = (0:ℝ) from rfl,
    show V4.x = (10:ℝ) from rfl, show U4.s = (1:ℝ) from rfl]
  rw [pr6, uS10 V4 0 h10, uF10 V4 0 h10, uQ1]
  norm_num

/-- Evaluation: expected utility to U4 of challenging V4, from the
point of view of V4, in W4. -/
theorem euG : eu_challenge W4 V4 U4 V4 = -1 := by
  have h10 : |U4.x - (10:ℝ)| = 10 := by
    rw [show U4.x = (0:ℝ) from rfl]
    norm_num
  simp only [eu_challenge]
  rw [show W4.position_range = (10:ℝ) from rfl, show W4.q = (1:ℝ) from rfl,
    show V4.r = (1:ℝ) from rfl, show V4.x = (10:ℝ) from rfl,
    show U4.x = (0:ℝ) from rfl, show V4.s = (1:ℝ) from rfl]
  rw [pr5, uS10 U4 10 h10, uF10 U4 10 h10, uQ1]
  norm_num

/-- Helper: the two actors of M1 are distinct. -/
theorem hB1A1 : ¬(B1 = A1) := by
  intro h
  have hn : B1.name = A1.name := by rw [h]
  simp [A1, B1] at hn

/-- Helper: the two actors of M1 are distinct, other direction. -/
theorem hA1B1 : ¬(A1 = B1) := by
  intro h
  have hn : A1.name = B1.name := by rw [h]
  simp [A1, B1] at hn

/-- Helper: the two actors of W4 are distinct. -/
theorem hV4U4 : ¬(V4 = U4) := by
  intro h
  have hn : V4.name = U4.name := by rw [h]
  simp [U4, V4] at hn

/-- Helper: the two actors of W4 are distinct, other direction. -/
theorem hU4V4 : ¬(U4 = V4) := by
  intro h
  have hn : U4.name = V4.name := by rw [h]
  simp [U4, V4] at hn

/-- Evaluation: danger level of A1 in M1. -/
theorem dA1 : danger_level M1 A1 = 2/3 := by
  rw [danger_level, show M1.actors = [A1, B1] from rfl]
  simp only [List.map_cons, List.map_nil, List.sum_cons, List.sum_nil, if_true]
  rw [if_neg hB1A1, euB]
  norm_num

/-- Evaluation: danger level of B1 in M1. -/
theorem dB1 : danger_level M1 B1 = 1/3 := by
  rw [danger_level, show M1.actors = [A1, B1] from rfl]
  simp only [List.map_cons, List.map_nil, List.sum_cons, List.sum_nil, if_true]
  rw [if_neg hA1B1, euC]
  norm_num

/-- Evaluation: danger level of U4 in W4. -/
theorem dU4 : danger_level W4 U4 = -1 := by
  rw [danger_level, show W4.actors = [U4, V4] from rfl]
  simp only [List.map_cons, List.map_nil, List.sum_cons, List.sum_nil, if_true]
  rw [if_neg hV4U4, euF]
  norm_num

/-- Evaluation: danger level of V4 in W4. -/
theorem dV4 : danger_level W4 V4 = -1 := by
  rw [danger_level, show W4.actors = [U4, V4] from rfl]
  simp only [List.map_cons, List.map_nil, List.sum_cons, List.sum_nil, if_true]
  rw [if_neg hU4V4, euG]
  norm_num

/-- Evaluation: maximal danger level in M1. -/
theorem maxD1 : maxDanger M1 = 2/3 := by
  rw [maxDanger_cons M1 A1 [B1] rfl, List.map_cons, List.map_nil,
    List.foldl_cons, List.foldl_nil, dA1, dB1]
  exact max_eq_left (by norm_num)

/-- Evaluation: minimal danger level in M1. -/
theorem minD1 : minDanger M1 = 1/3 := by
  rw [minDanger_cons M1 A1 [B1] rfl, List.map_cons, List.map_nil,
    List.foldl_cons, List.foldl_nil, dA1, dB1]
  exact min_eq_right (by norm_num)

/-- Evaluation: risk acceptance fails on the degenerate model W4. -/
theorem raW4 : risk_acceptance W4 U4 = none := by
  rw [risk_acceptance_cons W4 U4 U4 [V4] rfl]
  simp only [List.map_cons, List.map_nil, List.foldl_cons, List.foldl_nil]
  rw [dU4, dV4, max_self, min_self, if_pos (sub_self (-1 : ℝ))]

/-- Evaluation: the pair of M1 produces a confrontation offer. -/
theorem faM1 : from_actors M1 A1 B1 = some offerC := by
  simp only [from_actors, euA, euB]
  rw [if_pos (by norm_num : (2:ℝ)/3 > 1/3 ∧ (1:ℝ)/3 > 0)]
  rfl

/-- Evaluation: the pair of M2 produces a compromise offer. -/
theorem faM2 : from_actors M2 A2 B2 = some offerM := by
  simp only [from_actors, euD, euE]
  rw [if_neg (by norm_num : ¬((14:ℝ)/25 > -(4/25) ∧ ((-(4/25) : ℝ) > 0)))]
  rw [if_pos (by norm_num [abs_of_nonpos] :
    ((14:ℝ)/25 > 0 ∧ (0:ℝ) > -(4/25)) ∧ (14:ℝ)/25 > |(-(4/25) : ℝ)|)]
  rw [show A2.x = (0:ℝ) from rfl, show B2.x = (10:ℝ) from rfl, offerM]
  simp only [Option.some.injEq, Offer.mk.injEq]
  norm_num [abs_of_nonpos]

/-- Evaluation: the offer list collected by A1 in M1. -/
theorem obM1 : offersOf M1 A1 = [offerC] := by
  have hx : ¬(A1.x = B1.x) := by
    rw [show A1.x = (0:ℝ) from rfl, show B1.x = (10:ℝ) from rfl]
    norm_num
  rw [offersOf, show M1.actors = [A1, B1] from rfl]
  simp [List.filterMap_cons, hx, faM1]

/-- Evaluation: the offer list collected by A2 in M2. -/
theorem obM2 : offersOf M2 A2 = [offerM] := by
  have hx : ¬(A2.x = B2.x) := by
    rw [show A2.x = (0:ℝ) from rfl, show B2.x = (10:ℝ) from rfl]
    norm_num
  rw [offersOf, show M2.actors = [A2, B2] from rfl]
  simp [List.filterMap_cons, hx, faM2]

/-- Evaluation: the confrontation bucket of A1 in M1. -/
theorem bktM1conf : bucketOf M1 A1 OfferType.confrontation = [offerC] := by
  rw [bucketOf, obM1]
  simp [List.filter_cons, offerC]

/-- Evaluation: the confrontation bucket of A2 in M2 is empty. -/
theorem bktM2conf : bucketOf M2 A2 OfferType.confrontation = [] := by
  rw [bucketOf, obM2]
  simp [List.filter_cons, offerM]

/-- Evaluation: the compromise bucket of A2 in M2. -/
theorem bktM2comp : bucketOf M2 A2 OfferType.compromise = [offerM] := by
  rw [bucketOf, obM2]
  simp [List.filter_cons, offerM]

/-- Spot check for claim C1: in M1 the confrontation bucket of A1 is
populated and the selected offer is its distance-minimal
confrontation; in M2 the confrontation bucket is empty, the
compromise bucket is populated and a compromise is selected. -/
theorem claim_C1_witness :
    (bucketOf M1 A1 OfferType.confrontation = offerC :: [] ∧
      ∃ o, best_offer M1 A1 = some o ∧ o ∈ bucketOf M1 A1 OfferType.confrontation ∧
        o.offer_type = OfferType.confrontation ∧
        ∀ o2 ∈ bucketOf M1 A1 OfferType.confrontation,
          |A1.x - o.position| ≤ |A1.x - o2.position|) ∧
    (bucketOf M2 A2 OfferType.confrontation = [] ∧
      bucketOf M2 A2 OfferType.compromise = offerM :: [] ∧
      ∃ o, best_offer M2 A2 = some o ∧ o ∈ bucketOf M2 A2 OfferType.compromise ∧
        o.offer_type = OfferType.compromise) :=
  ⟨⟨bktM1conf, (claim_C1 M1 A1).1 offerC [] bktM1conf⟩,
    ⟨bktM2conf, bktM2comp, (claim_C1 M2 A2).2.1 bktM2conf offerM [] bktM2comp⟩⟩

/-- Spot check for claim C4 on the concrete model W4. -/
theorem claim_C4_witness :
    W4.position_range ≠ 0 ∧ U4 ∈ W4.actors ∧ V4 ∈ W4.actors ∧ denomSum W4 ≠ 0 ∧
    (numerSum W4 U4.x V4.x ≤ denomSum W4 ∧
      0 ≤ probability W4 U4.x V4.x ∧ probability W4 U4.x V4.x ≤ 1) := by
  have h1 : W4.position_range ≠ 0 := by
    rw [show W4.position_range = (10:ℝ) from rfl]
    norm_num
  have h2 : U4 ∈ W4.actors := by
    show U4 ∈ [U4, V4]
    exact List.mem_cons_self U4 [V4]
  have h3 : V4 ∈ W4.actors := by
    show V4 ∈ [U4, V4]
    exact List.mem_cons_of_mem U4 (List.mem_cons_self V4 [])
  have h4 : denomSum W4 ≠ 0 := by
    rw [dn4]
    norm_num
  exact ⟨h1, h2, h3, h4, claim_C4 W4 U4 V4 h1 h2 h3 h4⟩

/-- Spot check for claim C7: in M1 the danger spread is nonzero and
the formula value is returned; in the symmetric model W4 risk
acceptance fails and the danger levels indeed coincide. -/
theorem claim_C7_witness :
    (maxDanger M1 ≠ minDanger M1 ∧
      risk_acceptance M1 A1 =
        some ((2 * danger_level M1 A1 - maxDanger M1 - minDanger M1) /
          (maxDanger M1 - minDanger M1))) ∧
    (W4.actors ≠ [] ∧ risk_acceptance W4 U4 = none ∧
      danger_level W4 U4 = danger_level W4 V4) := by
  have hne : maxDanger M1 ≠ minDanger M1 := by
    rw [maxD1, minD1]
    norm_num
  have hWne : W4.actors ≠ [] := by
    show ([U4, V4] : List Actor) ≠ []
    simp
  have hU : U4 ∈ W4.actors := by
    show U4 ∈ [U4, V4]
    exact List.mem_cons_self U4 [V4]
  have hV : V4 ∈ W4.actors := by
    show V4 ∈ [U4, V4]
    exact List.mem_cons_of_mem U4 (List.mem_cons_self V4 [])
  exact ⟨⟨hne, (claim_C7 M1 A1).2.1 hne⟩,
    ⟨hWne, raW4, (claim_C7 W4 U4).2.2 hWne raW4 U4 hU V4 hV⟩⟩

end BDM
